import Mathlib

/-!
Verification of the network-interface counter registry (`src/apple/network.rs`
and `src/windows/network.rs`).

The registry is a `HashMap<String, NetworkData>`; we model it as an association
list `List (String × α)` with first-occurrence lookup, which matches the map
semantics on every state the program can construct (keys are unique there), and
all membership lemmas below are proved without assuming key uniqueness.

Both platform backends share the same update-or-insert shape over a stream of
observed records, so that shape is factored out (`procFold`, `scanList`) and
instantiated once per backend with the backend's exact record type, insert
value and rotation function, each translated field by field from the source.
-/

namespace Sysinfo

/-- First-occurrence lookup in an association list, the model of `HashMap::get`
and of `HashMap::entry`'s occupied test. -/
def lookup {α : Type} : List (String × α) → String → Option α
  | [], _ => none
  | (k, v) :: rest, key => if k = key then some v else lookup rest key

/-- Key membership, the model of "the interface name is present in the registry". -/
def containsKey {α : Type} (m : List (String × α)) (key : String) : Bool :=
  (lookup m key).isSome

/-- The model of `HashMap::entry`: modify the entry in place when the key is
present (`Entry::Occupied`), append a fresh entry otherwise (`Entry::Vacant`). -/
def upsert {α : Type} : List (String × α) → String → (α → α) → α → List (String × α)
  | [], key, _, d => [(key, d)]
  | (k, v) :: rest, key, f, d =>
      if k = key then (k, f v) :: rest else (k, v) :: upsert rest key f d

theorem lookup_upsert {α : Type} (m : List (String × α)) (key : String) (f : α → α) (d : α)
    (key2 : String) :
    lookup (upsert m key f d) key2 =
      if key = key2 then
        (match lookup m key with
         | some v => some (f v)
         | none => some d)
      else lookup m key2 := by
  induction m with
  | nil =>
      by_cases h : key = key2 <;> simp [upsert, lookup, h]
  | cons p rest ih =>
      obtain ⟨k, v⟩ := p
      by_cases hk : k = key
      · subst hk
        by_cases h2 : k = key2 <;> simp [upsert, lookup, h2]
      · by_cases h2 : k = key2
        · subst h2
          have hne : ¬ key = k := fun h => hk h.symm
          simp [upsert, lookup, hk, hne]
        · simp [upsert, lookup, hk, h2, ih]

theorem lookup_upsert_ne {α : Type} {m : List (String × α)} {key key2 : String}
    (f : α → α) (d : α) (h : key ≠ key2) :
    lookup (upsert m key f d) key2 = lookup m key2 := by
  simp [lookup_upsert, h]

theorem lookup_upsert_self {α : Type} (m : List (String × α)) (key : String)
    (f : α → α) (d : α) :
    lookup (upsert m key f d) key =
      (match lookup m key with
       | some v => some (f v)
       | none => some d) := by
  simp [lookup_upsert]

theorem mem_upsert_of_ne {α : Type} {m : List (String × α)} {key : String}
    {f : α → α} {d : α} {p : String × α} (hp : p ∈ upsert m key f d)
    (hne : p.1 ≠ key) : p ∈ m := by
  induction m with
  | nil =>
      simp [upsert] at hp
      exact absurd (by simp [hp]) hne
  | cons q rest ih =>
      obtain ⟨k, v⟩ := q
      by_cases hk : k = key
      · simp [upsert, hk] at hp
        rcases hp with hp | hp
        · exact absurd (by simp [hp, hk]) hne
        · exact List.mem_cons_of_mem _ hp
      · simp [upsert, hk] at hp
        rcases hp with hp | hp
        · simp [hp]
        · exact List.mem_cons_of_mem _ (ih hp)

theorem lookup_mem {α : Type} {m : List (String × α)} {key : String} {d : α}
    (h : lookup m key = some d) : (key, d) ∈ m := by
  induction m with
  | nil => simp [lookup] at h
  | cons q rest ih =>
      obtain ⟨k, v⟩ := q
      by_cases hk : k = key
      · subst hk
        simp [lookup] at h
        simp [h]
      · simp [lookup, hk] at h
        exact List.mem_cons_of_mem _ (ih h)

theorem containsKey_iff_exists_mem {α : Type} {m : List (String × α)} {key : String} :
    containsKey m key = true ↔ ∃ d, (key, d) ∈ m := by
  induction m with
  | nil => simp [containsKey, lookup]
  | cons q rest ih =>
      obtain ⟨k, v⟩ := q
      by_cases hk : k = key
      · subst hk
        simp [containsKey, lookup]
      · simp [containsKey, lookup, hk] at ih ⊢
        rw [ih]
        constructor
        · rintro ⟨d, hd⟩
          exact ⟨d, Or.inr hd⟩
        · rintro ⟨d, hd | hd⟩
          · exact absurd hd.1.symm hk
          · exact ⟨d, hd⟩

theorem lookup_filter {α : Type} {m : List (String × α)} {key : String} {d : α}
    (q : String × α → Bool) (h : lookup m key = some d) (hq : q (key, d) = true) :
    lookup (m.filter q) key = some d := by
  induction m with
  | nil => simp [lookup] at h
  | cons p rest ih =>
      obtain ⟨k, v⟩ := p
      by_cases hk : k = key
      · subst hk
        simp [lookup] at h
        subst h
        simp [List.filter, hq, lookup]
      · simp [lookup, hk] at h
        by_cases hkq : q (k, v) = true
        · simp [List.filter, hkq, lookup, hk]
          exact ih h
        · simp [List.filter, hkq]
          exact ih h

theorem lookup_map_value {α β : Type} (m : List (String × α)) (g : α → β) (key : String) :
    lookup (m.map (fun p => (p.1, g p.2))) key = (lookup m key).map g := by
  induction m with
  | nil => simp [lookup]
  | cons p rest ih =>
      obtain ⟨k, v⟩ := p
      by_cases hk : k = key <;> simp [lookup, hk, ih]

/-- One backend record applied to the registry: resolve the record's name
(`obsName`; `none` models a skipped record — wrong type tag or failed name
resolution), then update-or-insert through the `HashMap::entry` match. -/
def procStep {R α : Type} (obsName : R → Option String) (ins : R → α) (upd : α → R → α)
    (m : List (String × α)) (r : R) : List (String × α) :=
  match obsName r with
  | none => m
  | some n => upsert m n (fun d => upd d r) (ins r)

/-- The record loop of both backends: fold `procStep` over the observed records
in buffer / table order. -/
def procFold {R α : Type} (obsName : R → Option String) (ins : R → α) (upd : α → R → α)
    (m : List (String × α)) (recs : List R) : List (String × α) :=
  recs.foldl (procStep obsName ins upd) m

/-- The interface names successfully observed in a record stream. -/
def obsNames {R : Type} (obsName : R → Option String) (recs : List R) : List String :=
  recs.filterMap obsName

/-- The first record of the stream that resolves to a given name. -/
def firstRecFor {R : Type} (obsName : R → Option String) (recs : List R) (n : String) :
    Option R :=
  recs.find? (fun r => obsName r == some n)

/-- A full rescan, shared shape of both backends' `refresh_networks_list`:
clear every seen marker (`clearFn`), run the record loop, then
`retain(|_, d| d.updated)` (the `flag` filter). -/
def scanList {R α : Type} (obsName : R → Option String) (ins : R → α) (upd : α → R → α)
    (clearFn : α → α) (flag : α → Bool)
    (m : List (String × α)) (recs : List R) : List (String × α) :=
  (procFold obsName ins upd (m.map (fun p => (p.1, clearFn p.2))) recs).filter
    (fun p => flag p.2)

section ProcLemmas

variable {R α : Type} {obsName : R → Option String} {ins : R → α} {upd : α → R → α}

theorem lookup_procFold_not_obs {recs : List R} {n : String}
    (h : ∀ r ∈ recs, obsName r ≠ some n) (m : List (String × α)) :
    lookup (procFold obsName ins upd m recs) n = lookup m n := by
  induction recs generalizing m with
  | nil => rfl
  | cons r rest ih =>
      have hr := h r (List.mem_cons_self r rest)
      have hrest : ∀ r2 ∈ rest, obsName r2 ≠ some n :=
        fun r2 hr2 => h r2 (List.mem_cons_of_mem r hr2)
      rw [procFold, List.foldl_cons, ← procFold, ih hrest]
      cases hobs : obsName r with
      | none => simp [procStep, hobs]
      | some n2 =>
          have hne : n2 ≠ n := fun he => hr (by rw [hobs, he])
          simp [procStep, hobs, lookup_upsert_ne _ _ hne]

theorem mem_procFold_not_obs {recs : List R} {m : List (String × α)} {p : String × α}
    (hp : p ∈ procFold obsName ins upd m recs)
    (h : ∀ r ∈ recs, obsName r ≠ some p.1) : p ∈ m := by
  induction recs generalizing m with
  | nil => exact hp
  | cons r rest ih =>
      have hr := h r (List.mem_cons_self r rest)
      have hrest : ∀ r2 ∈ rest, obsName r2 ≠ some p.1 :=
        fun r2 hr2 => h r2 (List.mem_cons_of_mem r hr2)
      rw [procFold, List.foldl_cons, ← procFold] at hp
      have hp2 := ih hp hrest
      cases hobs : obsName r with
      | none => simpa [procStep, hobs] using hp2
      | some n2 =>
          rw [procStep, hobs] at hp2
          have hne : p.1 ≠ n2 := fun he => hr (by rw [hobs, he])
          exact mem_upsert_of_ne hp2 hne

theorem lookup_procFold_flag {flag : α → Bool}
    (hupd : ∀ d r, flag (upd d r) = true)
    {recs : List R} {m : List (String × α)} {n : String} {d : α}
    (hm : lookup m n = some d) (hd : flag d = true) :
    ∃ d2, lookup (procFold obsName ins upd m recs) n = some d2 ∧ flag d2 = true := by
  induction recs generalizing m d with
  | nil => exact ⟨d, hm, hd⟩
  | cons r rest ih =>
      rw [procFold, List.foldl_cons, ← procFold]
      cases hobs : obsName r with
      | none => exact ih (by simpa [procStep, hobs] using hm) hd
      | some n2 =>
          by_cases hne : n2 = n
          · subst hne
            refine ih (m := procStep obsName ins upd m r) (d := upd d r) ?_ (hupd d r)
            simp [procStep, hobs, lookup_upsert_self, hm]
          · refine ih (m := procStep obsName ins upd m r) (d := d) ?_ hd
            simp [procStep, hobs, lookup_upsert_ne _ _ hne, hm]

theorem lookup_procFold_obs {flag : α → Bool}
    (hins : ∀ r, flag (ins r) = true) (hupd : ∀ d r, flag (upd d r) = true)
    {recs : List R} {n : String} (hn : n ∈ obsNames obsName recs)
    (m : List (String × α)) :
    ∃ d2, lookup (procFold obsName ins upd m recs) n = some d2 ∧ flag d2 = true := by
  induction recs generalizing m with
  | nil => simp [obsNames] at hn
  | cons r rest ih =>
      rw [procFold, List.foldl_cons, ← procFold]
      by_cases hr : obsName r = some n
      · have hm2 : ∃ d2, lookup (procStep obsName ins upd m r) n = some d2 ∧
            flag d2 = true := by
          cases hm : lookup m n with
          | none =>
              exact ⟨ins r, by simp [procStep, hr, lookup_upsert_self, hm], hins r⟩
          | some d =>
              exact ⟨upd d r, by simp [procStep, hr, lookup_upsert_self, hm], hupd d r⟩
        obtain ⟨d2, hl, hf⟩ := hm2
        exact lookup_procFold_flag hupd hl hf
      · have hn2 : n ∈ obsNames obsName rest := by
          rw [obsNames, List.filterMap_cons] at hn
          cases hobs : obsName r with
          | none => rw [hobs] at hn; exact hn
          | some n2 =>
              rw [hobs] at hn
              rcases List.mem_cons.mp hn with he | htail
              · exact absurd (by rw [hobs, he]) hr
              · exact htail
        exact ih hn2 _

theorem firstRecFor_obsName {recs : List R} {n : String} {r : R}
    (h : firstRecFor obsName recs n = some r) : obsName r = some n := by
  have := List.find?_some h
  simpa using this

theorem firstRecFor_isSome_of_mem {recs : List R} {n : String}
    (hn : n ∈ obsNames obsName recs) : (firstRecFor obsName recs n).isSome := by
  rw [obsNames, List.mem_filterMap] at hn
  obtain ⟨r, hr, hobs⟩ := hn
  rw [firstRecFor, List.find?_isSome]
  exact ⟨r, hr, by simp [hobs]⟩

theorem lookup_procFold_firstRec {recs : List R} {n : String} {r : R}
    (hnd : (obsNames obsName recs).Nodup)
    (hfirst : firstRecFor obsName recs n = some r) (m : List (String × α)) :
    lookup (procFold obsName ins upd m recs) n =
      some (match lookup m n with
            | some d => upd d r
            | none => ins r) := by
  induction recs generalizing m with
  | nil => simp [firstRecFor] at hfirst
  | cons r0 rest ih =>
      rw [procFold, List.foldl_cons, ← procFold]
      by_cases hr0 : obsName r0 = some n
      · have hr0r : r0 = r := by
          rw [firstRecFor, List.find?_cons_of_pos _ (by simp [hr0])] at hfirst
          exact Option.some_injective _ hfirst
        subst hr0r
        have hnotrest : ∀ r2 ∈ rest, obsName r2 ≠ some n := by
          intro r2 hr2 hobs2
          have hmem : n ∈ obsNames obsName rest :=
            List.mem_filterMap.mpr ⟨r2, hr2, hobs2⟩
          have : obsNames obsName (r0 :: rest) = n :: obsNames obsName rest := by
            simp [obsNames, List.filterMap_cons, hr0]
          rw [this] at hnd
          exact (List.nodup_cons.mp hnd).1 hmem
        rw [lookup_procFold_not_obs hnotrest]
        simp only [procStep, hr0, lookup_upsert_self]
        cases lookup m n <;> rfl
      · have hfirst2 : firstRecFor obsName rest n = some r := by
          rw [firstRecFor, List.find?_cons_of_neg _ (by simp [hr0])] at hfirst
          exact hfirst
        have hnd2 : (obsNames obsName rest).Nodup := by
          rw [obsNames, List.filterMap_cons] at hnd
          cases hobs : obsName r0 with
          | none => rw [hobs] at hnd; exact hnd
          | some n2 => rw [hobs] at hnd; exact (List.nodup_cons.mp hnd).2
        rw [ih hnd2 hfirst2]
        cases hobs : obsName r0 with
        | none => simp [procStep, hobs]
        | some n2 =>
            have hne : n2 ≠ n := fun he => hr0 (by rw [hobs, he])
            simp [procStep, hobs, lookup_upsert_ne _ _ hne]

end ProcLemmas

section ScanLemmas

variable {R α : Type} {obsName : R → Option String} {ins : R → α} {upd : α → R → α}
variable {clearFn : α → α} {flag : α → Bool}

theorem scan_flag_mem {m : List (String × α)} {recs : List R} {p : String × α}
    (hp : p ∈ scanList obsName ins upd clearFn flag m recs) : flag p.2 = true :=
  (List.mem_filter.mp hp).2

theorem scan_containsKey_iff
    (hins : ∀ r, flag (ins r) = true) (hupd : ∀ d r, flag (upd d r) = true)
    (hclear : ∀ d, flag (clearFn d) = false)
    (m : List (String × α)) (recs : List R) (n : String) :
    containsKey (scanList obsName ins upd clearFn flag m recs) n = true ↔
      n ∈ obsNames obsName recs := by
  constructor
  · intro h
    by_contra hn
    have hno : ∀ r ∈ recs, obsName r ≠ some n := by
      intro r hr hobs
      exact hn (List.mem_filterMap.mpr ⟨r, hr, hobs⟩)
    obtain ⟨d, hd⟩ := containsKey_iff_exists_mem.mp h
    have hd2 := List.mem_filter.mp hd
    have hmem := mem_procFold_not_obs hd2.1 hno
    rw [List.mem_map] at hmem
    obtain ⟨p, _, hp⟩ := hmem
    have : flag d = false := by
      have : d = clearFn p.2 := congrArg Prod.snd hp.symm
      rw [this]; exact hclear p.2
    rw [this] at hd2
    exact Bool.false_ne_true hd2.2
  · intro hn
    obtain ⟨d2, hl, hf⟩ :=
      lookup_procFold_obs hins hupd hn (m.map (fun p => (p.1, clearFn p.2)))
    rw [scanList] at *
    have := lookup_filter (fun p => flag p.2) hl (by simpa using hf)
    simp [containsKey, this]

theorem scan_containsKey_false_of_not_obs
    (hclear : ∀ d, flag (clearFn d) = false)
    {m : List (String × α)} {recs : List R} {n : String}
    (hno : ∀ r ∈ recs, obsName r ≠ some n) :
    containsKey (scanList obsName ins upd clearFn flag m recs) n = false := by
  by_contra h
  have h2 : containsKey (scanList obsName ins upd clearFn flag m recs) n = true := by
    revert h
    cases containsKey (scanList obsName ins upd clearFn flag m recs) n <;> simp
  obtain ⟨d, hd⟩ := containsKey_iff_exists_mem.mp h2
  have hd2 := List.mem_filter.mp hd
  have hmem := mem_procFold_not_obs hd2.1 hno
  rw [List.mem_map] at hmem
  obtain ⟨p, _, hp⟩ := hmem
  have : flag d = false := by
    have : d = clearFn p.2 := congrArg Prod.snd hp.symm
    rw [this]; exact hclear p.2
  rw [this] at hd2
  exact Bool.false_ne_true hd2.2

theorem scan_lookup_firstRec
    (hins : ∀ r, flag (ins r) = true) (hupd : ∀ d r, flag (upd d r) = true)
    {m : List (String × α)} {recs : List R} {n : String} {r : R}
    (hnd : (obsNames obsName recs).Nodup)
    (hfirst : firstRecFor obsName recs n = some r) :
    lookup (scanList obsName ins upd clearFn flag m recs) n =
      some (match lookup m n with
            | some d => upd (clearFn d) r
            | none => ins r) := by
  have hmap := lookup_map_value m clearFn n
  have hfold : lookup (procFold obsName ins upd
      (m.map (fun p => (p.1, clearFn p.2))) recs) n =
      some (match lookup (m.map (fun p => (p.1, clearFn p.2))) n with
            | some d => upd d r
            | none => ins r) :=
    lookup_procFold_firstRec hnd hfirst (m.map (fun p => (p.1, clearFn p.2)))
  rw [hmap] at hfold
  rw [scanList]
  cases hm : lookup m n with
  | none =>
      rw [hm] at hfold
      simp only [Option.map_none'] at hfold
      exact lookup_filter _ hfold (by simpa using hins r)
  | some d =>
      rw [hm] at hfold
      simp only [Option.map_some'] at hfold
      exact lookup_filter _ hfold (by simpa using hupd (clearFn d) r)

theorem scan_lookup_first_occupied
    (hins : ∀ r, flag (ins r) = true) (hupd : ∀ d r, flag (upd d r) = true)
    {m : List (String × α)} {recs : List R} {n : String} {r : R} {d0 : α}
    (hnd : (obsNames obsName recs).Nodup)
    (hfirst : firstRecFor obsName recs n = some r)
    (hm : lookup m n = some d0) :
    lookup (scanList obsName ins upd clearFn flag m recs) n =
      some (upd (clearFn d0) r) := by
  have h : lookup (scanList obsName ins upd clearFn flag m recs) n =
      some (match lookup m n with
            | some d => upd (clearFn d) r
            | none => ins r) :=
    scan_lookup_firstRec hins hupd hnd hfirst
  rw [hm] at h
  exact h

theorem scan_lookup_first_vacant
    (hins : ∀ r, flag (ins r) = true) (hupd : ∀ d r, flag (upd d r) = true)
    {m : List (String × α)} {recs : List R} {n : String} {r : R}
    (hnd : (obsNames obsName recs).Nodup)
    (hfirst : firstRecFor obsName recs n = some r)
    (hm : lookup m n = none) :
    lookup (scanList obsName ins upd clearFn flag m recs) n = some (ins r) := by
  have h : lookup (scanList obsName ins upd clearFn flag m recs) n =
      some (match lookup m n with
            | some d => upd (clearFn d) r
            | none => ins r) :=
    scan_lookup_firstRec hins hupd hnd hfirst
  rw [hm] at h
  exact h

theorem scan_idem_containsKey
    (hins : ∀ r, flag (ins r) = true) (hupd : ∀ d r, flag (upd d r) = true)
    (hclear : ∀ d, flag (clearFn d) = false)
    (m : List (String × α)) (recs : List R) (n : String) :
    containsKey (scanList obsName ins upd clearFn flag
        (scanList obsName ins upd clearFn flag m recs) recs) n =
      containsKey (scanList obsName ins upd clearFn flag m recs) n := by
  by_cases hn : n ∈ obsNames obsName recs
  · rw [(scan_containsKey_iff hins hupd hclear _ recs n).mpr hn,
      (scan_containsKey_iff hins hupd hclear _ recs n).mpr hn]
  · have h1 : ∀ m2 : List (String × α),
        containsKey (scanList obsName ins upd clearFn flag m2 recs) n = false := by
      intro m2
      cases hc : containsKey (scanList obsName ins upd clearFn flag m2 recs) n with
      | false => rfl
      | true => exact absurd ((scan_containsKey_iff hins hupd hclear _ recs n).mp hc) hn
    rw [h1, h1]

theorem scan_twice_lookup
    (hins : ∀ r, flag (ins r) = true) (hupd : ∀ d r, flag (upd d r) = true)
    (hclear : ∀ d, flag (clearFn d) = false)
    {m : List (String × α)} {recs : List R} {n : String} {d : α}
    (hnd : (obsNames obsName recs).Nodup)
    (hl : lookup (scanList obsName ins upd clearFn flag
        (scanList obsName ins upd clearFn flag m recs) recs) n = some d) :
    ∃ r, firstRecFor obsName recs n = some r ∧
      ((∃ d0, lookup m n = some d0 ∧ d = upd (clearFn (upd (clearFn d0) r)) r) ∨
        d = upd (clearFn (ins r)) r) := by
  have hck : containsKey (scanList obsName ins upd clearFn flag
      (scanList obsName ins upd clearFn flag m recs) recs) n = true := by
    rw [containsKey, hl]
    rfl
  have hn : n ∈ obsNames obsName recs :=
    (scan_containsKey_iff hins hupd hclear _ recs n).mp hck
  obtain ⟨r, hr⟩ := Option.isSome_iff_exists.mp (firstRecFor_isSome_of_mem hn)
  refine ⟨r, hr, ?_⟩
  cases hm : lookup m n with
  | some d0 =>
      have h1 : lookup (scanList obsName ins upd clearFn flag m recs) n =
          some (upd (clearFn d0) r) :=
        scan_lookup_first_occupied hins hupd hnd hr hm
      have h2 : lookup (scanList obsName ins upd clearFn flag
          (scanList obsName ins upd clearFn flag m recs) recs) n =
          some (upd (clearFn (upd (clearFn d0) r)) r) :=
        scan_lookup_first_occupied hins hupd hnd hr h1
      rw [h2] at hl
      exact Or.inl ⟨d0, rfl, (Option.some_inj.mp hl).symm⟩
  | none =>
      have h1 : lookup (scanList obsName ins upd clearFn flag m recs) n =
          some (ins r) :=
        scan_lookup_first_vacant hins hupd hnd hr hm
      have h2 : lookup (scanList obsName ins upd clearFn flag
          (scanList obsName ins upd clearFn flag m recs) recs) n =
          some (upd (clearFn (ins r)) r) :=
        scan_lookup_first_occupied hins hupd hnd hr h1
      rw [h2] at hl
      exact Or.inr (Option.some_inj.mp hl).symm

end ScanLemmas

/-- Routing message type tag `RTM_IFINFO2` (0x12 on the apple platform); the
scan examines only records whose `ifm_type` equals it. -/
def RTM_IFINFO2 : Nat := 0x12

namespace Apple

/-- The two header fields of `libc::if_msghdr` that the walk in
`Networks::update_networks` actually reads before deciding anything else:
the record's declared total length and its type tag. `mem p` is the header
value obtained by reinterpreting the bytes at offset `p` of the sysctl buffer
(offsets at or past the buffer length model reads of memory the kernel never
wrote). -/
structure RawHdr where
  ifm_msglen : Nat
  ifm_type : Nat
deriving DecidableEq

/-- `ifm_msglen` is a two-byte (`u16`) field at the start of `if_msghdr`, so
dereferencing a record header at offset `p` reads at least bytes
`[p, p + msglenFieldSize)`; the full fixed header is strictly larger. -/
def msglenFieldSize : Nat := 2

/-- Offsets at which `while next < lim { let ifm = next as *const if_msghdr; ...
next = next.offset((*ifm).ifm_msglen) }` dereferences a record header, as a
fuelled model of the loop (the loop itself has no fuel; exhausting fuel just
truncates the position list). -/
def walkReads (mem : Nat → RawHdr) (len : Nat) : Nat → Nat → List Nat
  | 0, _ => []
  | fuel + 1, next =>
      if next < len then next :: walkReads mem len fuel (next + (mem next).ifm_msglen)
      else []

/-- Fuelled run of the same loop: `some next` when the guard `next < lim` fails
and the loop exits, `none` when the fuel is exhausted before that, so
`(∀ fuel, walkLoop mem len fuel start = none)` says the loop never terminates. -/
def walkLoop (mem : Nat → RawHdr) (len : Nat) : Nat → Nat → Option Nat
  | 0, _ => none
  | fuel + 1, next =>
      if next < len then walkLoop mem len fuel (next + (mem next).ifm_msglen)
      else some next

/-- The bound claimed for the walk: every header dereference stays inside the
buffer, stated for the two-byte `ifm_msglen` field alone (a necessary
condition for any in-bounds header read). -/
def walkInBounds (mem : Nat → RawHdr) (len fuel : Nat) : Prop :=
  ∀ p ∈ walkReads mem len fuel 0, p + msglenFieldSize ≤ len

/-- One parsed `if_msghdr2` record of the `NET_RT_IFLIST2` sysctl buffer:
the type tag and interface index from the header, and the six counters the
scan reads out of `ifm_data`. -/
structure IfRec where
  ifm_type : Nat
  ifm_index : Nat
  ifi_ibytes : Nat
  ifi_obytes : Nat
  ifi_ipackets : Nat
  ifi_opackets : Nat
  ifi_ierrors : Nat
  ifi_oerrors : Nat
deriving DecidableEq

/-- `NetworkData` of `src/apple/network.rs`: current/previous value per
counter plus the seen-this-scan marker. Counters are `u64`; they are only
copied and compared here, never added, so `Nat` models them exactly. -/
structure NetworkData where
  current_in : Nat
  old_in : Nat
  current_out : Nat
  old_out : Nat
  packets_in : Nat
  old_packets_in : Nat
  packets_out : Nat
  old_packets_out : Nat
  errors_in : Nat
  old_errors_in : Nat
  errors_out : Nat
  old_errors_out : Nat
  updated : Bool
deriving DecidableEq

/-- The `Entry::Occupied` branch of `update_networks`: each `old_and_new!`
moves the current value into the old slot and stores the fresh reading, then
`interface.updated = true`. -/
def rotate (d : NetworkData) (r : IfRec) : NetworkData where
  current_out := r.ifi_obytes
  old_out := d.current_out
  current_in := r.ifi_ibytes
  old_in := d.current_in
  packets_in := r.ifi_ipackets
  old_packets_in := d.packets_in
  packets_out := r.ifi_opackets
  old_packets_out := d.packets_out
  errors_in := r.ifi_ierrors
  old_errors_in := d.errors_in
  errors_out := r.ifi_oerrors
  old_errors_out := d.errors_out
  updated := true

/-- The `Entry::Vacant` branch of `update_networks`: a fresh entry whose old
values are initialized equal to the current readings, marked as seen. -/
def freshData (r : IfRec) : NetworkData where
  current_in := r.ifi_ibytes
  old_in := r.ifi_ibytes
  current_out := r.ifi_obytes
  old_out := r.ifi_obytes
  packets_in := r.ifi_ipackets
  old_packets_in := r.ifi_ipackets
  packets_out := r.ifi_opackets
  old_packets_out := r.ifi_opackets
  errors_in := r.ifi_ierrors
  old_errors_in := r.ifi_ierrors
  errors_out := r.ifi_oerrors
  old_errors_out := r.ifi_oerrors
  updated := true

/-- Name observed for one record: records whose type tag is not `RTM_IFINFO2`
are skipped, and so are records whose `if_indextoname` resolution (`resolve`,
`none` for a NULL return) fails. -/
def obsRec (resolve : Nat → Option String) (r : IfRec) : Option String :=
  if r.ifm_type = RTM_IFINFO2 then resolve r.ifm_index else none

/-- Reset of the seen-this-scan marker on one entry. -/
def clearData (d : NetworkData) : NetworkData :=
  { d with updated := false }

/-- The marker-clearing pass `for (_, data) in interfaces.iter_mut { data.updated = false }`. -/
def clearUpdated (m : List (String × NetworkData)) : List (String × NetworkData) :=
  m.map (fun p => (p.1, clearData p.2))

/-- `Networks::update_networks`: `fetch` is the outcome of the two sysctl
calls (`none` when either returns a negative value, in which case the function
returns with the registry untouched; `some recs` is the record stream the
buffer walk yields), followed by the record loop. -/
def update_networks (resolve : Nat → Option String) (fetch : Option (List IfRec))
    (m : List (String × NetworkData)) : List (String × NetworkData) :=
  match fetch with
  | none => m
  | some recs => procFold (obsRec resolve) freshData rotate m recs

/-- `NetworksExt::refresh` on the apple platform: exactly `update_networks`. -/
def refresh (resolve : Nat → Option String) (fetch : Option (List IfRec))
    (m : List (String × NetworkData)) : List (String × NetworkData) :=
  update_networks resolve fetch m

/-- `NetworksExt::refresh_networks_list` on the apple platform: clear every
seen marker, run `update_networks`, then `retain(|_, data| data.updated)`. -/
def refresh_networks_list (resolve : Nat → Option String) (fetch : Option (List IfRec))
    (m : List (String × NetworkData)) : List (String × NetworkData) :=
  (update_networks resolve fetch (clearUpdated m)).filter (fun p => p.2.updated)

/-- The record stream carried by a fetch outcome (empty when the sysctl calls
failed and the walk never ran). -/
def recsOf : Option (List IfRec) → List IfRec
  | none => []
  | some recs => recs

/-- `NetworkExt::get_received`: `current_in.saturating_sub(old_in)`; on `Nat`,
truncated subtraction is exactly `u64` saturating subtraction. -/
def get_received (d : NetworkData) : Nat := d.current_in - d.old_in

/-- `NetworkExt::get_total_received`. -/
def get_total_received (d : NetworkData) : Nat := d.current_in

/-- `NetworkExt::get_transmitted`. -/
def get_transmitted (d : NetworkData) : Nat := d.current_out - d.old_out

/-- `NetworkExt::get_total_transmitted`. -/
def get_total_transmitted (d : NetworkData) : Nat := d.current_out

/-- `NetworkExt::get_packets_received`. -/
def get_packets_received (d : NetworkData) : Nat := d.packets_in - d.old_packets_in

/-- `NetworkExt::get_total_packets_received`. -/
def get_total_packets_received (d : NetworkData) : Nat := d.packets_in

/-- `NetworkExt::get_packets_transmitted`. -/
def get_packets_transmitted (d : NetworkData) : Nat := d.packets_out - d.old_packets_out

/-- `NetworkExt::get_total_packets_transmitted`. -/
def get_total_packets_transmitted (d : NetworkData) : Nat := d.packets_out

/-- `NetworkExt::get_errors_on_received`. -/
def get_errors_on_received (d : NetworkData) : Nat := d.errors_in - d.old_errors_in

/-- `NetworkExt::get_total_errors_on_received`. -/
def get_total_errors_on_received (d : NetworkData) : Nat := d.errors_in

/-- `NetworkExt::get_errors_on_transmitted`. -/
def get_errors_on_transmitted (d : NetworkData) : Nat := d.errors_out - d.old_errors_out

/-- `NetworkExt::get_total_errors_on_transmitted`. -/
def get_total_errors_on_transmitted (d : NetworkData) : Nat := d.errors_out

theorem rescan_eq_scanList (resolve : Nat → Option String) (fetch : Option (List IfRec))
    (m : List (String × NetworkData)) :
    refresh_networks_list resolve fetch m =
      scanList (obsRec resolve) freshData rotate clearData (fun d => d.updated) m
        (recsOf fetch) := by
  cases fetch <;> rfl

end Apple

namespace Windows

/-- `u64` modulus for the one place the windows backend does arithmetic on
counters (the unicast + non-unicast packet sums). -/
def U64 : Nat := 2 ^ 64

/-- `MediaConnectStateDisconnected` of `NET_IF_MEDIA_CONNECT_STATE` (value 2). -/
def MediaConnectStateDisconnected : Nat := 2

/-- The interface GUID; `Data1` is the identity field the grouping key leaves
out, `Data4` its eight trailing bytes. -/
structure GUID where
  Data1 : Nat
  Data2 : Nat
  Data3 : Nat
  Data4 : List Nat
deriving DecidableEq

/-- One `MIB_IF_ROW2` of the `GetIfTable2` table, restricted to the fields
`refresh_networks_list` and `refresh` read. `Alias` stands for the interface
name decoded from the fixed-width UTF-16 `Alias` buffer up to its first null
(the decode step is modeled as always succeeding). -/
structure IfRow where
  TransmitLinkSpeed : Nat
  ReceiveLinkSpeed : Nat
  MediaConnectState : Nat
  PhysicalAddressLength : Nat
  InterfaceGuid : GUID
  Alias : String
  InterfaceLuid : Nat
  InOctets : Nat
  OutOctets : Nat
  InUcastPkts : Nat
  InNUcastPkts : Nat
  OutUcastPkts : Nat
  OutNUcastPkts : Nat
  InErrors : Nat
  OutErrors : Nat
deriving DecidableEq

/-- `NetworkData` of `src/windows/network.rs`: the snapshot plus the stored
`NET_LUID` (`id`) used by the counters-only refresh. -/
structure NetworkData where
  id : Nat
  current_out : Nat
  old_out : Nat
  current_in : Nat
  old_in : Nat
  packets_in : Nat
  old_packets_in : Nat
  packets_out : Nat
  old_packets_out : Nat
  errors_in : Nat
  old_errors_in : Nat
  errors_out : Nat
  old_errors_out : Nat
  updated : Bool
deriving DecidableEq

/-- The grouping key of a row: `vec![Data2, Data3, Data4[0], .., Data4[7]]` —
every GUID field except the identity field `Data1`. -/
def groupKey (g : GUID) : List Nat :=
  g.Data2 :: g.Data3 :: g.Data4

/-- A row survives the speed/state/address checks: the loop body skips a row
when both link speeds are zero, or its media state is disconnected, or its
physical address length is zero. -/
def rowPasses (r : IfRow) : Bool :=
  !((r.TransmitLinkSpeed == 0 && r.ReceiveLinkSpeed == 0)
    || r.MediaConnectState == MediaConnectStateDisconnected
    || r.PhysicalAddressLength == 0)

/-- Received packets as the row reports them: unicast plus non-unicast,
a wrapping `u64` sum. -/
def pkIn (r : IfRow) : Nat := (r.InUcastPkts + r.InNUcastPkts) % U64

/-- Transmitted packets: unicast plus non-unicast, a wrapping `u64` sum. -/
def pkOut (r : IfRow) : Nat := (r.OutUcastPkts + r.OutNUcastPkts) % U64

/-- `groups.entry(id.clone()).or_insert(0); *entry += 1` on the group-count
map, modeled as a function update. -/
def bump (groups : List Nat → Nat) (id : List Nat) : List Nat → Nat :=
  fun k => if k = id then groups k + 1 else groups k

/-- Classification pass of `refresh_networks_list` (pass 1): walk the rows in
table order with the running group-count map and the row counter `i`; a row
that passes the checks bumps its grouping key's count and is pushed onto
`indexes` only when it is the first passing row with that key (`*entry > 1`
skips). The pushed triple also carries the row itself, standing for the later
`ptr.offset(i)` refetch of the unchanged table. -/
def pass1Aux : List IfRow → (List Nat → Nat) → Nat →
    ((List Nat → Nat) × List (Nat × List Nat × IfRow))
  | [], groups, _ => (groups, [])
  | r :: rest, groups, i =>
      if rowPasses r then
        let id := groupKey r.InterfaceGuid
        let res := pass1Aux rest (bump groups id) (i + 1)
        if bump groups id id > 1 then res else (res.1, (i, id, r) :: res.2)
      else pass1Aux rest groups (i + 1)

/-- Pass 1 started on the empty group map at row 0. -/
def pass1 (table : List IfRow) : (List Nat → Nat) × List (Nat × List Nat × IfRow) :=
  pass1Aux table (fun _ => 0) 0

/-- Pass 2's selection: of the pushed `(i, id, row)` triples, keep those whose
grouping key's final count is not greater than one (`groups.get(&id) > 1`
skips the rest). -/
def committedEntries (table : List IfRow) : List (Nat × List Nat × IfRow) :=
  (pass1 table).2.filter (fun e => decide ((pass1 table).1 e.2.1 ≤ 1))

/-- The rows `refresh_networks_list` actually commits to the registry. -/
def committedRows (table : List IfRow) : List IfRow :=
  (committedEntries table).map (fun e => e.2.2)

/-- The table indexes of the committed rows. -/
def committedIndexes (table : List IfRow) : List Nat :=
  (committedEntries table).map (fun e => e.1)

/-- Number of rows passing the speed/state/address checks whose grouping key
is `id`. -/
def countPassing (table : List IfRow) (id : List Nat) : Nat :=
  (table.filter rowPasses).countP (fun r => groupKey r.InterfaceGuid == id)

/-- The `Entry::Occupied` rotation of the windows rescan, without the marker:
also the counter update of the counters-only `refresh` path (which does not
touch `updated`). -/
def rotateCounters (d : NetworkData) (r : IfRow) : NetworkData :=
  { d with
    current_out := r.OutOctets
    old_out := d.current_out
    current_in := r.InOctets
    old_in := d.current_in
    packets_in := pkIn r
    old_packets_in := d.packets_in
    packets_out := pkOut r
    old_packets_out := d.packets_out
    errors_in := r.InErrors
    old_errors_in := d.errors_in
    errors_out := r.OutErrors
    old_errors_out := d.errors_out }

/-- The full `Entry::Occupied` branch of the rescan: rotate the counters and
set the seen marker. -/
def rotate (d : NetworkData) (r : IfRow) : NetworkData :=
  { rotateCounters d r with updated := true }

/-- The `Entry::Vacant` branch of the rescan: record the row's `InterfaceLuid`,
initialize old equal to current, mark as seen. -/
def freshData (r : IfRow) : NetworkData where
  id := r.InterfaceLuid
  current_out := r.OutOctets
  old_out := r.OutOctets
  current_in := r.InOctets
  old_in := r.InOctets
  packets_in := pkIn r
  old_packets_in := pkIn r
  packets_out := pkOut r
  old_packets_out := pkOut r
  errors_in := r.InErrors
  old_errors_in := r.InErrors
  errors_out := r.OutErrors
  old_errors_out := r.OutErrors
  updated := true

/-- Every committed row is keyed by its decoded alias name. -/
def obsRow (r : IfRow) : Option String :=
  some r.Alias

/-- Reset of the seen-this-scan marker on one entry. -/
def clearData (d : NetworkData) : NetworkData :=
  { d with updated := false }

/-- The marker-clearing pass, run after `GetIfTable2` succeeded. -/
def clearUpdated (m : List (String × NetworkData)) : List (String × NetworkData) :=
  m.map (fun p => (p.1, clearData p.2))

/-- `NetworksExt::refresh_networks_list` on the windows platform: `fetch` is
the `GetIfTable2` outcome (`none` on a non-`NO_ERROR` return, in which case
the function returns at once); on success it clears the markers, classifies
the table, commits the surviving rows in order, frees the table (no registry
effect) and retains the marked entries. -/
def refresh_networks_list (fetch : Option (List IfRow))
    (m : List (String × NetworkData)) : List (String × NetworkData) :=
  match fetch with
  | none => m
  | some table =>
      (procFold obsRow freshData rotate (clearUpdated m) (committedRows table)).filter
        (fun p => p.2.updated)

/-- `NetworksExt::refresh` on the windows platform: for each registered entry,
query `GetIfEntry2` by the stored `InterfaceLuid` (with `InterfaceIndex`
cleared, so the handle alone keys the query, modeled by `query` taking only
the luid); a failed query skips the entry, a successful one rotates its
counters. No entry is added or removed. -/
def refresh (query : Nat → Option IfRow)
    (m : List (String × NetworkData)) : List (String × NetworkData) :=
  m.map (fun p =>
    (p.1, match query p.2.id with
          | none => p.2
          | some row => rotateCounters p.2 row))

/-- `NetworkExt::get_received`: `current_in.saturating_sub(old_in)`. -/
def get_received (d : NetworkData) : Nat := d.current_in - d.old_in

/-- `NetworkExt::get_total_received`. -/
def get_total_received (d : NetworkData) : Nat := d.current_in

/-- `NetworkExt::get_transmitted`. -/
def get_transmitted (d : NetworkData) : Nat := d.current_out - d.old_out

/-- `NetworkExt::get_total_transmitted`. -/
def get_total_transmitted (d : NetworkData) : Nat := d.current_out

/-- `NetworkExt::get_packets_received`. -/
def get_packets_received (d : NetworkData) : Nat := d.packets_in - d.old_packets_in

/-- `NetworkExt::get_total_packets_received`. -/
def get_total_packets_received (d : NetworkData) : Nat := d.packets_in

/-- `NetworkExt::get_packets_transmitted`. -/
def get_packets_transmitted (d : NetworkData) : Nat := d.packets_out - d.old_packets_out

/-- `NetworkExt::get_total_packets_transmitted`. -/
def get_total_packets_transmitted (d : NetworkData) : Nat := d.packets_out

/-- `NetworkExt::get_errors_on_received`. -/
def get_errors_on_received (d : NetworkData) : Nat := d.errors_in - d.old_errors_in

/-- `NetworkExt::get_total_errors_on_received`. -/
def get_total_errors_on_received (d : NetworkData) : Nat := d.errors_in

/-- `NetworkExt::get_errors_on_transmitted`. -/
def get_errors_on_transmitted (d : NetworkData) : Nat := d.errors_out - d.old_errors_out

/-- `NetworkExt::get_total_errors_on_transmitted`. -/
def get_total_errors_on_transmitted (d : NetworkData) : Nat := d.errors_out

theorem win_rescan_eq_scanList (table : List IfRow) (m : List (String × NetworkData)) :
    refresh_networks_list (some table) m =
      scanList obsRow freshData rotate clearData (fun d => d.updated) m
        (committedRows table) := rfl

theorem countPassing_nil (id : List Nat) : countPassing [] id = 0 := rfl

theorem countPassing_cons_pass {r : IfRow} (h : rowPasses r = true)
    (l : List IfRow) (id : List Nat) :
    countPassing (r :: l) id =
      countPassing l id + (if groupKey r.InterfaceGuid = id then 1 else 0) := by
  simp [countPassing, List.filter_cons, h, List.countP_cons]

theorem countPassing_cons_fail {r : IfRow} (h : rowPasses r = false)
    (l : List IfRow) (id : List Nat) :
    countPassing (r :: l) id = countPassing l id := by
  simp [countPassing, List.filter_cons, h]

theorem pass1Aux_cons_fail {r0 : IfRow} (h : rowPasses r0 = false)
    (rest : List IfRow) (groups : List Nat → Nat) (i : Nat) :
    pass1Aux (r0 :: rest) groups i = pass1Aux rest groups (i + 1) := by
  simp [pass1Aux, h]

theorem pass1Aux_fst_cons_pass {r0 : IfRow} (h : rowPasses r0 = true)
    (rest : List IfRow) (groups : List Nat → Nat) (i : Nat) :
    (pass1Aux (r0 :: rest) groups i).1 =
      (pass1Aux rest (bump groups (groupKey r0.InterfaceGuid)) (i + 1)).1 := by
  simp only [pass1Aux, h, if_true]
  split <;> rfl

theorem bump_self (groups : List Nat → Nat) (id : List Nat) :
    bump groups id id = groups id + 1 := by
  simp [bump]

theorem bump_ne (groups : List Nat → Nat) {id k : List Nat} (h : k ≠ id) :
    bump groups id k = groups k := by
  simp [bump, h]

theorem pass1Aux_cons_pass_seen {r0 : IfRow} (h : rowPasses r0 = true)
    (hs : 0 < groups (groupKey r0.InterfaceGuid))
    (rest : List IfRow) (i : Nat) :
    pass1Aux (r0 :: rest) groups i =
      pass1Aux rest (bump groups (groupKey r0.InterfaceGuid)) (i + 1) := by
  simp only [pass1Aux, h, if_true]
  rw [if_pos (by rw [bump_self]; omega)]

theorem pass1Aux_cons_pass_new {r0 : IfRow} (h : rowPasses r0 = true)
    (hz : groups (groupKey r0.InterfaceGuid) = 0)
    (rest : List IfRow) (i : Nat) :
    pass1Aux (r0 :: rest) groups i =
      ((pass1Aux rest (bump groups (groupKey r0.InterfaceGuid)) (i + 1)).1,
        (i, groupKey r0.InterfaceGuid, r0) ::
          (pass1Aux rest (bump groups (groupKey r0.InterfaceGuid)) (i + 1)).2) := by
  simp only [pass1Aux, h, if_true]
  rw [if_neg (by rw [bump_self]; omega)]

theorem pass1Aux_groups (rows : List IfRow) :
    ∀ (groups : List Nat → Nat) (i : Nat) (id : List Nat),
      (pass1Aux rows groups i).1 id = groups id + countPassing rows id := by
  induction rows with
  | nil =>
      intro groups i id
      simp [pass1Aux, countPassing]
  | cons r0 rest ih =>
      intro groups i id
      by_cases hp : rowPasses r0 = true
      · rw [pass1Aux_fst_cons_pass hp, ih, countPassing_cons_pass hp]
        by_cases hid : id = groupKey r0.InterfaceGuid
        · rw [if_pos hid.symm, hid, bump_self]
          omega
        · rw [if_neg (fun e => hid e.symm), bump_ne groups hid]
          omega
      · have hp2 : rowPasses r0 = false := by revert hp; cases rowPasses r0 <;> simp
        rw [pass1Aux_cons_fail hp2, ih, countPassing_cons_fail hp2]

theorem pass1Aux_mem (rows : List IfRow) :
    ∀ (groups : List Nat → Nat) (i j : Nat) (id : List Nat) (r : IfRow),
      ((j, id, r) ∈ (pass1Aux rows groups i).2) ↔
        ∃ k, rows[k]? = some r ∧ j = i + k ∧ rowPasses r = true ∧
          id = groupKey r.InterfaceGuid ∧
          groups id + countPassing (rows.take k) id = 0 := by
  induction rows with
  | nil =>
      intro groups i j id r
      simp [pass1Aux]
  | cons r0 rest ih =>
      intro groups i j id r
      by_cases hp : rowPasses r0 = true
      · by_cases hseen : 0 < groups (groupKey r0.InterfaceGuid)
        · rw [pass1Aux_cons_pass_seen hp hseen, ih]
          constructor
          · rintro ⟨k, h1, h2, h3, h4, h5⟩
            refine ⟨k + 1, by simpa using h1, by omega, h3, h4, ?_⟩
            rw [List.take_succ_cons, countPassing_cons_pass hp]
            by_cases hid : id = groupKey r0.InterfaceGuid
            · exfalso
              rw [hid, bump_self] at h5
              omega
            · rw [if_neg (fun e => hid e.symm)]
              rw [bump_ne groups hid] at h5
              omega
          · rintro ⟨k, h1, h2, h3, h4, h5⟩
            cases k with
            | zero =>
                exfalso
                rw [List.getElem?_cons_zero] at h1
                have hr : r0 = r := by simpa using h1
                rw [List.take_zero, countPassing_nil] at h5
                rw [h4, ← hr] at h5
                omega
            | succ k2 =>
                refine ⟨k2, by simpa using h1, by omega, h3, h4, ?_⟩
                rw [List.take_succ_cons, countPassing_cons_pass hp] at h5
                by_cases hid : id = groupKey r0.InterfaceGuid
                · exfalso
                  rw [if_pos hid.symm] at h5
                  omega
                · rw [if_neg (fun e => hid e.symm)] at h5
                  rw [bump_ne groups hid]
                  omega
        · have hz : groups (groupKey r0.InterfaceGuid) = 0 := by omega
          rw [pass1Aux_cons_pass_new hp hz]
          simp only [List.mem_cons, ih]
          constructor
          · rintro (heq | ⟨k, h1, h2, h3, h4, h5⟩)
            · injection heq with hj h6
              injection h6 with hid hr
              refine ⟨0, ?_, ?_, ?_, ?_, ?_⟩
              · rw [List.getElem?_cons_zero, hr]
              · omega
              · rw [hr]; exact hp
              · rw [hid, hr]
              · rw [List.take_zero, countPassing_nil, hid]
                omega
            · refine ⟨k + 1, by simpa using h1, by omega, h3, h4, ?_⟩
              rw [List.take_succ_cons, countPassing_cons_pass hp]
              by_cases hid : id = groupKey r0.InterfaceGuid
              · exfalso
                rw [hid, bump_self] at h5
                omega
              · rw [if_neg (fun e => hid e.symm)]
                rw [bump_ne groups hid] at h5
                omega
          · rintro ⟨k, h1, h2, h3, h4, h5⟩
            cases k with
            | zero =>
                left
                rw [List.getElem?_cons_zero] at h1
                have hr : r0 = r := by simpa using h1
                rw [← hr] at h4
                simp [← hr, h4, h2]
            | succ k2 =>
                right
                refine ⟨k2, by simpa using h1, by omega, h3, h4, ?_⟩
                rw [List.take_succ_cons, countPassing_cons_pass hp] at h5
                by_cases hid : id = groupKey r0.InterfaceGuid
                · exfalso
                  rw [if_pos hid.symm] at h5
                  omega
                · rw [if_neg (fun e => hid e.symm)] at h5
                  rw [bump_ne groups hid]
                  omega
      · have hp2 : rowPasses r0 = false := by revert hp; cases rowPasses r0 <;> simp
        rw [pass1Aux_cons_fail hp2, ih]
        constructor
        · rintro ⟨k, h1, h2, h3, h4, h5⟩
          refine ⟨k + 1, by simpa using h1, by omega, h3, h4, ?_⟩
          rw [List.take_succ_cons, countPassing_cons_fail hp2]
          exact h5
        · rintro ⟨k, h1, h2, h3, h4, h5⟩
          cases k with
          | zero =>
              exfalso
              rw [List.getElem?_cons_zero] at h1
              have hr : r0 = r := by simpa using h1
              rw [← hr] at h3
              rw [hp2] at h3
              exact Bool.false_ne_true h3
          | succ k2 =>
              refine ⟨k2, by simpa using h1, by omega, h3, h4, ?_⟩
              rw [List.take_succ_cons, countPassing_cons_fail hp2] at h5
              exact h5

theorem countPassing_append (a b : List IfRow) (id : List Nat) :
    countPassing (a ++ b) id = countPassing a id + countPassing b id := by
  simp [countPassing, List.filter_append, List.countP_append]

theorem countPassing_pos_of_mem {table : List IfRow} {i : Nat} {r : IfRow}
    (hget : table[i]? = some r) (hp : rowPasses r = true) :
    1 ≤ countPassing table (groupKey r.InterfaceGuid) := by
  have hm : r ∈ table := List.getElem?_mem hget
  have hm2 : r ∈ table.filter rowPasses := List.mem_filter.mpr ⟨hm, hp⟩
  have hpos : 0 < countPassing table (groupKey r.InterfaceGuid) := by
    simp only [countPassing]
    exact List.countP_pos_iff.mpr ⟨r, hm2, by simp⟩
  omega

theorem committed_iff (table : List IfRow) (i : Nat) (r : IfRow)
    (hget : table[i]? = some r) :
    i ∈ committedIndexes table ↔
      rowPasses r = true ∧ countPassing table (groupKey r.InterfaceGuid) = 1 := by
  have hfst : ∀ id2, (pass1 table).1 id2 = countPassing table id2 := by
    intro id2
    rw [pass1, pass1Aux_groups]
    omega
  constructor
  · intro hmem
    rw [committedIndexes, List.mem_map] at hmem
    obtain ⟨e, he, hei⟩ := hmem
    rw [committedEntries, List.mem_filter] at he
    obtain ⟨he1, he2⟩ := he
    obtain ⟨j, id, r2⟩ := e
    rw [pass1] at he1
    rw [pass1Aux_mem] at he1
    obtain ⟨k, h1, h2, h3, h4, h5⟩ := he1
    have hji : j = i := hei
    have hki : k = i := by omega
    subst hki
    have hr2 : r2 = r := by
      rw [hget] at h1
      exact (Option.some_inj.mp h1).symm
    subst hr2
    refine ⟨h3, ?_⟩
    have hle : countPassing table id ≤ 1 := by
      have := of_decide_eq_true he2
      rw [hfst id] at this
      exact this
    have hge := countPassing_pos_of_mem hget h3
    rw [← h4] at hge ⊢
    omega
  · rintro ⟨hp, hc⟩
    have hlen : i < table.length := (List.getElem?_eq_some.mp hget).1
    have hdecomp : countPassing (table.take i) (groupKey r.InterfaceGuid) = 0 := by
      have hsplit : table = table.take i ++ table.drop i := (List.take_append_drop i table).symm
      have hdrop : table.drop i = r :: table.drop (i + 1) := by
        rw [List.drop_eq_getElem_cons hlen]
        obtain ⟨w, hw⟩ := List.getElem?_eq_some.mp hget
        simp [hw]
      have : countPassing table (groupKey r.InterfaceGuid) =
          countPassing (table.take i) (groupKey r.InterfaceGuid) +
            (countPassing (table.drop (i + 1)) (groupKey r.InterfaceGuid) + 1) := by
        conv_lhs => rw [hsplit]
        rw [countPassing_append, hdrop, countPassing_cons_pass hp, if_pos rfl]
      omega
    have hmem2 : (i, groupKey r.InterfaceGuid, r) ∈ (pass1 table).2 := by
      rw [pass1, pass1Aux_mem]
      exact ⟨i, hget, by omega, hp, rfl, by simpa using hdecomp⟩
    rw [committedIndexes, List.mem_map]
    refine ⟨(i, groupKey r.InterfaceGuid, r), ?_, rfl⟩
    rw [committedEntries, List.mem_filter]
    refine ⟨hmem2, decide_eq_true ?_⟩
    rw [hfst, hc]

end Windows

/-- Saturating subtraction of `u64` readings, as `Nat` truncated subtraction,
clamps the signed difference at zero. -/
theorem cast_sub_eq_max (a b : Nat) :
    ((a - b : Nat) : Int) = max ((a : Int) - (b : Int)) 0 := by
  omega

theorem containsKey_upsert_of {α : Type} {m : List (String × α)} {key n : String}
    {f : α → α} {d : α} (h : containsKey m n = true) :
    containsKey (upsert m key f d) n = true := by
  rw [containsKey, lookup_upsert]
  by_cases hk : key = n
  · rw [if_pos hk]
    subst hk
    cases hm : lookup m key <;> simp
  · rw [if_neg hk]
    exact h

theorem containsKey_procFold {R α : Type} {obsName : R → Option String}
    {ins : R → α} {upd : α → R → α} {m : List (String × α)} {n : String}
    (recs : List R) (hm : containsKey m n = true) :
    containsKey (procFold obsName ins upd m recs) n = true := by
  induction recs generalizing m with
  | nil => exact hm
  | cons r rest ih =>
      rw [procFold, List.foldl_cons, ← procFold]
      apply ih
      cases hobs : obsName r with
      | none => simpa [procStep, hobs] using hm
      | some n2 =>
          simp only [procStep, hobs]
          exact containsKey_upsert_of hm

/-- Name resolution used in the concrete scan scenarios: kernel interface
index 3 resolves to "eth0", every other index fails. -/
def c6resolve : Nat → Option String :=
  fun i => if i = 3 then some "eth0" else none

/-- One qualifying `RTM_IFINFO2` record: index 3, 100 bytes in, 50 bytes out. -/
def c6rec1 : Apple.IfRec :=
  ⟨RTM_IFINFO2, 3, 100, 50, 0, 0, 0, 0⟩

/-- The same interface on the second poll, bytes in grown to 150. -/
def c6rec2 : Apple.IfRec :=
  ⟨RTM_IFINFO2, 3, 150, 50, 0, 0, 0, 0⟩

/-- Registry after a first full rescan of the empty registry over `c6rec1`. -/
def c6m1 : List (String × Apple.NetworkData) :=
  Apple.refresh_networks_list c6resolve (some [c6rec1]) []

/-- Registry after a second full rescan over `c6rec2`. -/
def c6m2 : List (String × Apple.NetworkData) :=
  Apple.refresh_networks_list c6resolve (some [c6rec2]) c6m1

/-- A concrete registry entry value with all twelve counters distinct and the
seen marker set. -/
def c8data : Apple.NetworkData :=
  ⟨1, 2, 3, 4, 5, 6, 7, 8, 9, 10, 11, 12, true⟩

/-- Buffer contents for the out-of-bounds read scenario: every offset decodes
to a header with declared length 4. -/
def c2mem : Nat → Apple.RawHdr :=
  fun _ => ⟨4, 0⟩

/-- Buffer contents for the stall scenario: every offset decodes to a header
with declared length zero. -/
def c3mem : Nat → Apple.RawHdr :=
  fun _ => ⟨0, 0⟩

/-- C2, the bound the code actually violates (code_bug): on a buffer of total
length 1 the walk dereferences the record header at offset 0 — the guard
`next < lim` holds — although even the two-byte `ifm_msglen` field alone
extends past the end of the buffer, so the declared-length bound of the claim
does not hold for the walk in `Networks::update_networks`. -/
theorem c2_header_read_past_end :
    ¬ Apple.walkInBounds c2mem 1 5 ∧ Apple.walkReads c2mem 1 5 0 = [0] := by
  constructor
  · intro h
    have h2 := h 0 (by decide)
    revert h2
    decide
  · decide

/-- C3, the stall the code actually exhibits (code_bug): on a buffer whose
record at offset 0 declares `ifm_msglen = 0`, the cursor advance
`next = next.offset(ifm_msglen)` leaves the cursor at 0, the guard
`next < lim` stays true, and the loop of `Networks::update_networks` never
terminates: no amount of fuel completes the fuelled model of the loop. -/
theorem c3_zero_msglen_never_terminates :
    ∀ fuel : Nat, Apple.walkLoop c3mem 1 fuel 0 = none := by
  intro fuel
  induction fuel with
  | zero => rfl
  | succ f ih =>
      simp only [Apple.walkLoop, c3mem]
      simpa using ih

/-- C8 (code_bug demonstration): on the apple platform,
`refresh_networks_list` clears every seen marker before `update_networks`
issues its first sysctl; when that sysctl fails (`fetch = none`) the update is
abandoned, but the final `retain(|_, data| data.updated)` then evicts every
entry — a nonempty registry is emptied by a failed kernel query, instead of
being left untouched as the claim states. On the windows platform the fetch is
checked before the markers are cleared, and a failed `GetIfTable2` indeed
leaves any registry unchanged. -/
theorem c8_sysctl_failure_empties_registry :
    Apple.refresh_networks_list (fun _ => none) none [("eth0", c8data)] = [] ∧
      ([("eth0", c8data)] : List (String × Apple.NetworkData)) ≠ [] ∧
      ∀ m : List (String × Windows.NetworkData),
        Windows.refresh_networks_list none m = m := by
  refine ⟨by decide, by decide, fun m => rfl⟩

/-- C5 (confirmed): after a rotation that installs a fresh reading over the
previous one (`old_and_new!`), every delta accessor returns the saturating
difference `current - previous` clamped at zero — `max (c2 - c1) 0` over the
integers — and every total accessor returns the current reading unchanged;
on both platforms (on windows the observed packet reading is the wrapping
unicast + non-unicast sum). -/
theorem c5_delta_saturating :
    (∀ (d : Apple.NetworkData) (r : Apple.IfRec),
        ((Apple.get_received (Apple.rotate d r) : Int) =
            max ((r.ifi_ibytes : Int) - (d.current_in : Int)) 0) ∧
        ((Apple.get_transmitted (Apple.rotate d r) : Int) =
            max ((r.ifi_obytes : Int) - (d.current_out : Int)) 0) ∧
        ((Apple.get_packets_received (Apple.rotate d r) : Int) =
            max ((r.ifi_ipackets : Int) - (d.packets_in : Int)) 0) ∧
        ((Apple.get_packets_transmitted (Apple.rotate d r) : Int) =
            max ((r.ifi_opackets : Int) - (d.packets_out : Int)) 0) ∧
        ((Apple.get_errors_on_received (Apple.rotate d r) : Int) =
            max ((r.ifi_ierrors : Int) - (d.errors_in : Int)) 0) ∧
        ((Apple.get_errors_on_transmitted (Apple.rotate d r) : Int) =
            max ((r.ifi_oerrors : Int) - (d.errors_out : Int)) 0) ∧
        Apple.get_total_received (Apple.rotate d r) = r.ifi_ibytes ∧
        Apple.get_total_transmitted (Apple.rotate d r) = r.ifi_obytes ∧
        Apple.get_total_packets_received (Apple.rotate d r) = r.ifi_ipackets ∧
        Apple.get_total_packets_transmitted (Apple.rotate d r) = r.ifi_opackets ∧
        Apple.get_total_errors_on_received (Apple.rotate d r) = r.ifi_ierrors ∧
        Apple.get_total_errors_on_transmitted (Apple.rotate d r) = r.ifi_oerrors) ∧
    (∀ (d : Windows.NetworkData) (r : Windows.IfRow),
        ((Windows.get_received (Windows.rotate d r) : Int) =
            max ((r.InOctets : Int) - (d.current_in : Int)) 0) ∧
        ((Windows.get_transmitted (Windows.rotate d r) : Int) =
            max ((r.OutOctets : Int) - (d.current_out : Int)) 0) ∧
        ((Windows.get_packets_received (Windows.rotate d r) : Int) =
            max ((Windows.pkIn r : Int) - (d.packets_in : Int)) 0) ∧
        ((Windows.get_packets_transmitted (Windows.rotate d r) : Int) =
            max ((Windows.pkOut r : Int) - (d.packets_out : Int)) 0) ∧
        ((Windows.get_errors_on_received (Windows.rotate d r) : Int) =
            max ((r.InErrors : Int) - (d.errors_in : Int)) 0) ∧
        ((Windows.get_errors_on_transmitted (Windows.rotate d r) : Int) =
            max ((r.OutErrors : Int) - (d.errors_out : Int)) 0) ∧
        Windows.get_total_received (Windows.rotate d r) = r.InOctets ∧
        Windows.get_total_transmitted (Windows.rotate d r) = r.OutOctets ∧
        Windows.get_total_packets_received (Windows.rotate d r) = Windows.pkIn r ∧
        Windows.get_total_packets_transmitted (Windows.rotate d r) = Windows.pkOut r ∧
        Windows.get_total_errors_on_received (Windows.rotate d r) = r.InErrors ∧
        Windows.get_total_errors_on_transmitted (Windows.rotate d r) = r.OutErrors) := by
  constructor
  · intro d r
    exact ⟨cast_sub_eq_max _ _, cast_sub_eq_max _ _, cast_sub_eq_max _ _,
      cast_sub_eq_max _ _, cast_sub_eq_max _ _, cast_sub_eq_max _ _,
      rfl, rfl, rfl, rfl, rfl, rfl⟩
  · intro d r
    exact ⟨cast_sub_eq_max _ _, cast_sub_eq_max _ _, cast_sub_eq_max _ _,
      cast_sub_eq_max _ _, cast_sub_eq_max _ _, cast_sub_eq_max _ _,
      rfl, rfl, rfl, rfl, rfl, rfl⟩

/-- C6 (confirmed): a fresh entry reports zero deltas and totals equal to the
first reading; a rotation keeps the former current reading as previous and
installs the new one, so for a grown reading the delta is the difference; and
the concrete scenario — first rescan over (index 3 → "eth0", bytes in 100,
bytes out 50) gives totals 100/50 with zero deltas, a second rescan with bytes
in 150 gives delta 50 and total 150. -/
theorem c6_first_insert_then_rotate :
    (∀ r : Apple.IfRec,
        Apple.get_received (Apple.freshData r) = 0 ∧
        Apple.get_transmitted (Apple.freshData r) = 0 ∧
        Apple.get_packets_received (Apple.freshData r) = 0 ∧
        Apple.get_packets_transmitted (Apple.freshData r) = 0 ∧
        Apple.get_errors_on_received (Apple.freshData r) = 0 ∧
        Apple.get_errors_on_transmitted (Apple.freshData r) = 0 ∧
        Apple.get_total_received (Apple.freshData r) = r.ifi_ibytes ∧
        Apple.get_total_transmitted (Apple.freshData r) = r.ifi_obytes) ∧
    (∀ (d : Apple.NetworkData) (r : Apple.IfRec),
        (Apple.rotate d r).old_in = d.current_in ∧
        (Apple.rotate d r).current_in = r.ifi_ibytes ∧
        (d.current_in ≤ r.ifi_ibytes →
          (Apple.get_received (Apple.rotate d r) : Int) =
            (r.ifi_ibytes : Int) - (d.current_in : Int))) ∧
    ((lookup c6m1 "eth0").map Apple.get_total_received = some 100 ∧
      (lookup c6m1 "eth0").map Apple.get_total_transmitted = some 50 ∧
      (lookup c6m1 "eth0").map Apple.get_received = some 0 ∧
      (lookup c6m1 "eth0").map Apple.get_transmitted = some 0 ∧
      (lookup c6m2 "eth0").map Apple.get_received = some 50 ∧
      (lookup c6m2 "eth0").map Apple.get_total_received = some 150) := by
  refine ⟨?_, ?_, by decide⟩
  · intro r
    refine ⟨?_, ?_, ?_, ?_, ?_, ?_, rfl, rfl⟩ <;>
      simp [Apple.get_received, Apple.get_transmitted, Apple.get_packets_received,
        Apple.get_packets_transmitted, Apple.get_errors_on_received,
        Apple.get_errors_on_transmitted, Apple.freshData]
  · intro d r
    refine ⟨rfl, rfl, fun h => ?_⟩
    have : Apple.get_received (Apple.rotate d r) = r.ifi_ibytes - d.current_in := rfl
    rw [this]
    omega

/-- Witness for C6's conditional conjunct at a concrete input. -/
theorem c6_first_insert_then_rotate_witness :
    c8data.current_in ≤ c6rec1.ifi_ibytes ∧
      (Apple.get_received (Apple.rotate c8data c6rec1) : Int) =
        (c6rec1.ifi_ibytes : Int) - (c8data.current_in : Int) :=
  ⟨by decide, (c6_first_insert_then_rotate.2.1 c8data c6rec1).2.2 (by decide)⟩

/-- C1 is false as stated: on the routing-socket backend the counters-only
`refresh` is exactly `update_networks`, whose `Entry::Vacant` branch inserts.
At the concrete input — empty registry, buffer holding one qualifying record
whose index resolves to "eth0" — `refresh` inserts an entry for "eth0", so
refresh does change registry membership. -/
theorem c1_counterexample :
    containsKey (Apple.refresh c6resolve (some [c6rec1]) []) "eth0" = true ∧
      containsKey ([] : List (String × Apple.NetworkData)) "eth0" = false := by
  decide

/-- C1 amended (the part the code does satisfy): the counters-only refresh
never removes an existing entry on either backend — every name present before
is present after — and on the table-API backend it changes membership not at
all; but on the routing-socket backend it may insert an entry for a newly
observed interface (see the counterexample). -/
theorem c1_refresh_membership :
    (∀ (resolve : Nat → Option String) (fetch : Option (List Apple.IfRec))
        (m : List (String × Apple.NetworkData)) (n : String),
        containsKey m n = true →
        containsKey (Apple.refresh resolve fetch m) n = true) ∧
    (∀ (query : Nat → Option Windows.IfRow) (m : List (String × Windows.NetworkData)),
        (Windows.refresh query m).map Prod.fst = m.map Prod.fst) := by
  constructor
  · intro resolve fetch m n h
    cases fetch with
    | none => exact h
    | some recs => exact containsKey_procFold recs h
  · intro query m
    rw [Windows.refresh, List.map_map]
    rfl

/-- Witness for C1's amended theorem: a registry holding "eth0" still holds it
after an apple refresh over a buffer naming a different interface. -/
theorem c1_refresh_membership_witness :
    containsKey [("eth0", c8data)] "eth0" = true ∧
      containsKey (Apple.refresh c6resolve (some [c6rec1]) [("eth0", c8data)])
        "eth0" = true :=
  ⟨by decide, c1_refresh_membership.1 c6resolve (some [c6rec1]) [("eth0", c8data)]
    "eth0" (by decide)⟩

/-- C4 (confirmed): on both platforms, an entry whose name is not observed by
the rescan's enumerate-and-update step is absent afterwards; the
marker-clearing pass leaves every entry's seen marker false; and only entries
whose marker is true survive the final retain. On the apple platform all of
this holds for any fetch outcome (markers are cleared before the fetch); on
the windows platform the clearing and retain run only after `GetIfTable2`
succeeds, so those conjuncts are stated for a successful fetch, and a row of
the table counts as observed only if it is committed by the classification. -/
theorem c4_rescan_eviction :
    (∀ (resolve : Nat → Option String) (fetch : Option (List Apple.IfRec))
        (m : List (String × Apple.NetworkData)) (n : String),
        (∀ r ∈ Apple.recsOf fetch, Apple.obsRec resolve r ≠ some n) →
        containsKey (Apple.refresh_networks_list resolve fetch m) n = false) ∧
    (∀ (m : List (String × Apple.NetworkData)) (p : String × Apple.NetworkData),
        p ∈ Apple.clearUpdated m → p.2.updated = false) ∧
    (∀ (resolve : Nat → Option String) (fetch : Option (List Apple.IfRec))
        (m : List (String × Apple.NetworkData)) (p : String × Apple.NetworkData),
        p ∈ Apple.refresh_networks_list resolve fetch m → p.2.updated = true) ∧
    (∀ (table : List Windows.IfRow) (m : List (String × Windows.NetworkData))
        (n : String),
        (∀ r ∈ Windows.committedRows table, r.Alias ≠ n) →
        containsKey (Windows.refresh_networks_list (some table) m) n = false) ∧
    (∀ (m : List (String × Windows.NetworkData)) (p : String × Windows.NetworkData),
        p ∈ Windows.clearUpdated m → p.2.updated = false) ∧
    (∀ (table : List Windows.IfRow) (m : List (String × Windows.NetworkData))
        (p : String × Windows.NetworkData),
        p ∈ Windows.refresh_networks_list (some table) m → p.2.updated = true) := by
  refine ⟨?_, ?_, ?_, ?_, ?_, ?_⟩
  · intro resolve fetch m n hno
    rw [Apple.rescan_eq_scanList]
    exact scan_containsKey_false_of_not_obs (fun d => rfl) hno
  · intro m p hp
    rw [Apple.clearUpdated, List.mem_map] at hp
    obtain ⟨q, _, hq⟩ := hp
    rw [← hq]
    rfl
  · intro resolve fetch m p hp
    rw [Apple.rescan_eq_scanList] at hp
    exact scan_flag_mem hp
  · intro table m n hno
    rw [Windows.win_rescan_eq_scanList]
    refine scan_containsKey_false_of_not_obs (fun d => rfl) ?_
    intro r hr heq
    exact hno r hr (Option.some_inj.mp heq)
  · intro m p hp
    rw [Windows.clearUpdated, List.mem_map] at hp
    obtain ⟨q, _, hq⟩ := hp
    rw [← hq]
    rfl
  · intro table m p hp
    rw [Windows.win_rescan_eq_scanList] at hp
    exact scan_flag_mem hp

/-- Witness for C4 at a concrete input: a registry entry "eth0" whose name no
record of the scanned buffer resolves to is gone after the rescan. -/
theorem c4_rescan_eviction_witness :
    (∀ r ∈ Apple.recsOf (some [c6rec1]), Apple.obsRec (fun _ => none) r ≠ some "eth0") ∧
      containsKey (Apple.refresh_networks_list (fun _ => none) (some [c6rec1])
        [("eth0", c8data)]) "eth0" = false :=
  ⟨by decide, c4_rescan_eviction.1 (fun _ => none) (some [c6rec1]) [("eth0", c8data)]
    "eth0" (by decide)⟩

/-- C10 (confirmed, implicit claim): on the routing-socket backend, when an
interface's extended-info record is present in the buffer but its
`if_indextoname` resolution fails, the record is skipped, so the entry's seen
marker is never set and the entry is evicted by the rescan's final retain —
stale counters are not kept. -/
theorem c10_unresolved_index_evicts :
    ∀ (resolve : Nat → Option String) (recs : List Apple.IfRec)
      (m : List (String × Apple.NetworkData)) (n : String) (r : Apple.IfRec),
      r ∈ recs → r.ifm_type = RTM_IFINFO2 → resolve r.ifm_index = none →
      containsKey m n = true →
      (∀ r2 ∈ recs, Apple.obsRec resolve r2 ≠ some n) →
      containsKey (Apple.refresh_networks_list resolve (some recs) m) n = false := by
  intro resolve recs m n r hmem htype hres hkey hno
  rw [Apple.rescan_eq_scanList]
  exact scan_containsKey_false_of_not_obs (fun d => rfl) hno

/-- Witness for C10: registry holds "eth0", the buffer holds the qualifying
record of index 3, resolution fails for every index, and the entry is evicted. -/
theorem c10_unresolved_index_evicts_witness :
    containsKey [("eth0", c8data)] "eth0" = true ∧
      containsKey (Apple.refresh_networks_list (fun _ => none) (some [c6rec1])
        [("eth0", c8data)]) "eth0" = false :=
  ⟨by decide, c10_unresolved_index_evicts (fun _ => none) [c6rec1] [("eth0", c8data)]
    "eth0" c6rec1 (by decide) (by decide) rfl (by decide) (by decide)⟩

/-- Shared GUID of the duplicated rows in the table scenarios. -/
def c7guidK : Windows.GUID :=
  ⟨1, 10, 11, [1, 2, 3, 4, 5, 6, 7, 8]⟩

/-- GUID of the unique row in the three-row scenario. -/
def c7guidL : Windows.GUID :=
  ⟨2, 20, 21, [9, 9, 9, 9, 9, 9, 9, 9]⟩

/-- A row passing every speed/state/address check, grouping key from
`c7guidK`. -/
def c7rowValid : Windows.IfRow :=
  ⟨1000, 1000, 1, 6, c7guidK, "phys", 101, 10, 20, 1, 2, 3, 4, 0, 0⟩

/-- A disconnected row with the same grouping key as `c7rowValid`. -/
def c7rowGhost : Windows.IfRow :=
  ⟨1000, 1000, Windows.MediaConnectStateDisconnected, 6, c7guidK, "ghost", 102,
    10, 20, 1, 2, 3, 4, 0, 0⟩

/-- Two-row table: a valid row and a disconnected row sharing its grouping
key. -/
def c7table2 : List Windows.IfRow :=
  [c7rowValid, c7rowGhost]

/-- First of two valid rows sharing `c7guidK`. -/
def c7rowA : Windows.IfRow :=
  ⟨1000, 1000, 1, 6, c7guidK, "dupA", 103, 10, 20, 1, 2, 3, 4, 0, 0⟩

/-- Second of two valid rows sharing `c7guidK`. -/
def c7rowB : Windows.IfRow :=
  ⟨1000, 1000, 1, 6, c7guidK, "dupB", 104, 10, 20, 1, 2, 3, 4, 0, 0⟩

/-- A valid row with the unique grouping key from `c7guidL`. -/
def c7rowU : Windows.IfRow :=
  ⟨1000, 1000, 1, 6, c7guidL, "unique", 105, 10, 20, 1, 2, 3, 4, 0, 0⟩

/-- Three-row table: two valid rows sharing a grouping key plus one unique
valid row. -/
def c7table3 : List Windows.IfRow :=
  [c7rowA, c7rowB, c7rowU]

/-- C7 is false as stated: the claim's clause (d) excludes a row as soon as
more than one row in the whole table shares its grouping key, but the code
counts a grouping key only over the rows that pass the speed/state/address
checks. In `c7table2` both rows share the key, yet the second is
disconnected, so the valid row at index 0 is still committed. -/
theorem c7_counterexample :
    0 ∈ Windows.committedIndexes c7table2 ∧
      2 ≤ c7table2.countP (fun r2 =>
        Windows.groupKey r2.InterfaceGuid ==
          Windows.groupKey c7rowValid.InterfaceGuid) := by
  decide

/-- C7 amended (what the code does): a row at index `i` is committed iff it
passes the speed/state/address checks and exactly one row among those passing
the checks carries its grouping key; and the three-row scenario — two valid
rows sharing a key plus a unique valid row — commits exactly the unique row. -/
theorem c7_filter_characterization :
    (∀ (table : List Windows.IfRow) (i : Nat) (r : Windows.IfRow),
        table[i]? = some r →
        (i ∈ Windows.committedIndexes table ↔
          Windows.rowPasses r = true ∧
            Windows.countPassing table (Windows.groupKey r.InterfaceGuid) = 1)) ∧
    (Windows.committedIndexes c7table3 = [2] ∧
      containsKey (Windows.refresh_networks_list (some c7table3) []) "unique" = true ∧
      containsKey (Windows.refresh_networks_list (some c7table3) []) "dupA" = false ∧
      containsKey (Windows.refresh_networks_list (some c7table3) []) "dupB" = false) :=
  ⟨Windows.committed_iff, by decide⟩

/-- Witness for C7's amended characterization at the three-row table. -/
theorem c7_filter_characterization_witness :
    c7table3[2]? = some c7rowU ∧
      (2 ∈ Windows.committedIndexes c7table3 ↔
        Windows.rowPasses c7rowU = true ∧
          Windows.countPassing c7table3 (Windows.groupKey c7rowU.InterfaceGuid) = 1) :=
  ⟨by decide, c7_filter_characterization.1 c7table3 2 c7rowU (by decide)⟩

/-- The observed names of the windows commit loop are exactly the committed
rows' aliases. -/
theorem win_obsNames_eq_map (l : List Windows.IfRow) :
    obsNames Windows.obsRow l = l.map (fun r => r.Alias) := by
  induction l with
  | nil => rfl
  | cons r rest ih =>
      simp [obsNames, List.filterMap_cons, Windows.obsRow] at ih ⊢
      exact ih

/-- C9 (confirmed): when a full rescan observes each interface name at most
once (the claim's "observes exactly the same interface set"), running the
rescan twice over the same observation leaves the same entry set as running
it once, and after the second run every entry's previous counters equal its
current counters, so every delta accessor returns zero; on both platforms. -/
theorem c9_rescan_idempotent :
    (∀ (resolve : Nat → Option String) (recs : List Apple.IfRec)
        (m : List (String × Apple.NetworkData)),
        (obsNames (Apple.obsRec resolve) recs).Nodup →
        (∀ n, containsKey (Apple.refresh_networks_list resolve (some recs)
                (Apple.refresh_networks_list resolve (some recs) m)) n =
              containsKey (Apple.refresh_networks_list resolve (some recs) m) n) ∧
        (∀ n d, lookup (Apple.refresh_networks_list resolve (some recs)
                (Apple.refresh_networks_list resolve (some recs) m)) n = some d →
            d.old_in = d.current_in ∧ d.old_out = d.current_out ∧
            d.old_packets_in = d.packets_in ∧ d.old_packets_out = d.packets_out ∧
            d.old_errors_in = d.errors_in ∧ d.old_errors_out = d.errors_out ∧
            Apple.get_received d = 0 ∧ Apple.get_transmitted d = 0 ∧
            Apple.get_packets_received d = 0 ∧ Apple.get_packets_transmitted d = 0 ∧
            Apple.get_errors_on_received d = 0 ∧
            Apple.get_errors_on_transmitted d = 0)) ∧
    (∀ (table : List Windows.IfRow) (m : List (String × Windows.NetworkData)),
        ((Windows.committedRows table).map (fun r => r.Alias)).Nodup →
        (∀ n, containsKey (Windows.refresh_networks_list (some table)
                (Windows.refresh_networks_list (some table) m)) n =
              containsKey (Windows.refresh_networks_list (some table) m) n) ∧
        (∀ n d, lookup (Windows.refresh_networks_list (some table)
                (Windows.refresh_networks_list (some table) m)) n = some d →
            d.old_in = d.current_in ∧ d.old_out = d.current_out ∧
            d.old_packets_in = d.packets_in ∧ d.old_packets_out = d.packets_out ∧
            d.old_errors_in = d.errors_in ∧ d.old_errors_out = d.errors_out ∧
            Windows.get_received d = 0 ∧ Windows.get_transmitted d = 0 ∧
            Windows.get_packets_received d = 0 ∧
            Windows.get_packets_transmitted d = 0 ∧
            Windows.get_errors_on_received d = 0 ∧
            Windows.get_errors_on_transmitted d = 0)) := by
  constructor
  · intro resolve recs m hnd
    constructor
    · intro n
      simp only [Apple.rescan_eq_scanList, Apple.recsOf]
      exact scan_idem_containsKey (fun r => rfl) (fun d r => rfl) (fun d => rfl) m recs n
    · intro n d hl
      simp only [Apple.rescan_eq_scanList, Apple.recsOf] at hl
      obtain ⟨r, _, hshape⟩ :=
        scan_twice_lookup (fun r => rfl) (fun d r => rfl) (fun d => rfl) hnd hl
      rcases hshape with ⟨d0, _, rfl⟩ | rfl <;>
        simp [Apple.rotate, Apple.clearData, Apple.freshData, Apple.get_received,
          Apple.get_transmitted, Apple.get_packets_received,
          Apple.get_packets_transmitted, Apple.get_errors_on_received,
          Apple.get_errors_on_transmitted]
  · intro table m hnd
    have hnd2 : (obsNames Windows.obsRow (Windows.committedRows table)).Nodup := by
      rw [win_obsNames_eq_map]
      exact hnd
    constructor
    · intro n
      simp only [Windows.win_rescan_eq_scanList]
      exact scan_idem_containsKey (fun r => rfl) (fun d r => rfl) (fun d => rfl) m
        (Windows.committedRows table) n
    · intro n d hl
      simp only [Windows.win_rescan_eq_scanList] at hl
      obtain ⟨r, _, hshape⟩ :=
        scan_twice_lookup (fun r => rfl) (fun d r => rfl) (fun d => rfl) hnd2 hl
      rcases hshape with ⟨d0, _, rfl⟩ | rfl <;>
        simp [Windows.rotate, Windows.rotateCounters, Windows.clearData,
          Windows.freshData, Windows.get_received, Windows.get_transmitted,
          Windows.get_packets_received, Windows.get_packets_transmitted,
          Windows.get_errors_on_received, Windows.get_errors_on_transmitted]

/-- Witness for C9 at a concrete input: the single-record observation has
pairwise distinct names, and the second rescan reports the same membership
for "eth0" as the first. -/
theorem c9_rescan_idempotent_witness :
    (obsNames (Apple.obsRec c6resolve) [c6rec1]).Nodup ∧
      containsKey (Apple.refresh_networks_list c6resolve (some [c6rec1])
          (Apple.refresh_networks_list c6resolve (some [c6rec1]) [])) "eth0" =
        containsKey (Apple.refresh_networks_list c6resolve (some [c6rec1]) [])
          "eth0" :=
  ⟨by decide, (c9_rescan_idempotent.1 c6resolve [c6rec1] [] (by decide)).1 "eth0"⟩

end Sysinfo
